import Mathlib

/-!
Verification of the strategy-bootstrap tool (sources
`src/strategies/bootstrap_strategies.py` and `src/strategies/bootstrape.py`,
whose core functions are line-for-line identical) against its
natural-language specification.

Shallow-embedding conventions:
* A Python `dict` (insertion-ordered, update-in-place) is modelled as an
  association list together with the update operation `setk`.
* Filesystem paths are lists of path segments (`List String`); file bytes are
  `List Nat`.
* `hashlib.sha256(...).hexdigest()` is modelled by an executable SHA-256
  implementation `sha256hex` over the byte list.
* Fallible code returns `Except String`; filesystem mutation performed by the
  tool is recorded as an explicit list of `FsEffect` events, and
  `write_registry` acts on an explicit filesystem state.
-/

namespace Bootstrap

/-- Python dict assignment `d[k] = v`: replaces the binding in place when the
key is already present (first occurrence), otherwise appends the new binding
at the end — exactly the insertion-order behaviour of a CPython dict. -/
def setk {κ α : Type} [BEq κ] : List (κ × α) → κ → α → List (κ × α)
  | [], k, v => [(k, v)]
  | (k', v') :: rest, k, v =>
    if k' == k then (k, v) :: rest else (k', v') :: setk rest k v

theorem setk_ne_nil {κ α : Type} [BEq κ] (d : List (κ × α)) (k : κ) (v : α) :
    setk d k v ≠ [] := by
  cases d with
  | nil => simp [setk]
  | cons p rest =>
    obtain ⟨k', v'⟩ := p
    by_cases h : k' == k <;> simp [setk, h]

theorem lookup_setk_self {κ α : Type} [BEq κ] [LawfulBEq κ] (d : List (κ × α)) (k : κ) (v : α) :
    (setk d k v).lookup k = some v := by
  induction d with
  | nil => simp [setk, List.lookup]
  | cons p rest ih =>
    obtain ⟨k', v'⟩ := p
    by_cases h : k' == k
    · simp [setk, h, List.lookup]
    · have hne : ¬ (k == k') := by
        intro hk
        exact h (by simp_all)
      simp [setk, h, List.lookup, hne, ih]

theorem lookup_setk_ne {κ α : Type} [BEq κ] [LawfulBEq κ] (d : List (κ × α)) (k k₂ : κ) (v : α)
    (hne : k₂ ≠ k) : (setk d k v).lookup k₂ = d.lookup k₂ := by
  have hb : ¬ (k₂ == k) := by simp [hne]
  induction d with
  | nil => simp [setk, List.lookup, hb]
  | cons p rest ih =>
    obtain ⟨k', v'⟩ := p
    by_cases h : k' == k
    · have hk : k' = k := by simp_all
      have h2 : ¬ (k₂ == k) := by simp [hne]
      have h3 : ¬ (k₂ == k') := by simp [hk, hne]
      simp [setk, h, List.lookup, h2, h3, hk]
    · by_cases hq : k₂ == k'
      · simp [setk, h, List.lookup, hq]
      · simp [setk, h, List.lookup, hq, ih]

theorem mem_keys_setk {κ α : Type} [BEq κ] [LawfulBEq κ] (d : List (κ × α)) (k k₂ : κ) (v : α) :
    k₂ ∈ (setk d k v).map Prod.fst ↔ k₂ = k ∨ k₂ ∈ d.map Prod.fst := by
  induction d with
  | nil => simp [setk]
  | cons p rest ih =>
    obtain ⟨k', v'⟩ := p
    by_cases h : k' == k
    · have hk : k' = k := by simp_all
      subst hk
      simp [setk, h]
    · simp [setk, h, ih]
      tauto

theorem mem_setk {κ α : Type} [BEq κ] (d : List (κ × α)) (k : κ) (v : α) (p : κ × α)
    (hp : p ∈ setk d k v) : p = (k, v) ∨ p ∈ d := by
  induction d with
  | nil => simp [setk] at hp; simp [hp]
  | cons q rest ih =>
    obtain ⟨k', v'⟩ := q
    by_cases h : k' == k
    · simp [setk, h] at hp
      rcases hp with h1 | h1 <;> simp [h1]
    · simp [setk, h] at hp
      rcases hp with h1 | h1
      · simp [h1]
      · rcases ih h1 with h2 | h2 <;> simp [h2]

theorem lookup_mem {κ α : Type} [BEq κ] [LawfulBEq κ] (d : List (κ × α)) (k : κ) (v : α)
    (h : d.lookup k = some v) : (k, v) ∈ d := by
  induction d with
  | nil => simp [List.lookup] at h
  | cons p rest ih =>
    obtain ⟨k', v'⟩ := p
    by_cases hq : k == k'
    · have hk : k = k' := by simp_all
      simp [List.lookup, hq] at h
      simp [hk, h]
    · simp [List.lookup, hq] at h
      simp [ih h]

theorem mem_keys_lookup {κ α : Type} [BEq κ] [LawfulBEq κ] (d : List (κ × α)) (k : κ)
    (h : k ∈ d.map Prod.fst) : ∃ v, d.lookup k = some v := by
  induction d with
  | nil => simp at h
  | cons p rest ih =>
    obtain ⟨k', v'⟩ := p
    by_cases hq : k == k'
    · exact ⟨v', by simp [List.lookup, hq]⟩
    · have hk : k ≠ k' := by simp_all
      rw [List.map_cons] at h
      rcases List.mem_cons.mp h with h1 | h1
      · exact absurd h1 hk
      · obtain ⟨v, hv⟩ := ih h1
        exact ⟨v, by simp [List.lookup, hq, hv]⟩

theorem lookup_mem_values {κ α : Type} [BEq κ] [LawfulBEq κ] (d : List (κ × α)) (k : κ) (v : α)
    (h : d.lookup k = some v) : v ∈ d.map Prod.snd := by
  have := lookup_mem d k v h
  exact List.mem_map.mpr ⟨(k, v), this, rfl⟩

/-! ## SHA-256 (model of `hashlib.sha256(source).hexdigest()`)

Executable SHA-256 over a list of bytes, producing the lowercase hexadecimal
digest string exactly as `hexdigest()` does.  Machine words are `Nat` reduced
modulo `2 ^ 32`. -/

def w32 (n : Nat) : Nat := n % 4294967296

def rotr32 (x n : Nat) : Nat := w32 ((x >>> n) ||| (x <<< (32 - n)))

def smallSigma0 (x : Nat) : Nat := (rotr32 x 7) ^^^ (rotr32 x 18) ^^^ (x >>> 3)

def smallSigma1 (x : Nat) : Nat := (rotr32 x 17) ^^^ (rotr32 x 19) ^^^ (x >>> 10)

def bigSigma0 (x : Nat) : Nat := (rotr32 x 2) ^^^ (rotr32 x 13) ^^^ (rotr32 x 22)

def bigSigma1 (x : Nat) : Nat := (rotr32 x 6) ^^^ (rotr32 x 11) ^^^ (rotr32 x 25)

def sha_K : List Nat :=
  [1116352408, 1899447441, 3049323471, 3921009573, 961987163, 1508970993,
   2453635748, 2870763221, 3624381080, 310598401, 607225278, 1426881987,
   1925078388, 2162078206, 2614888103, 3248222580, 3835390401, 4022224774,
   264347078, 604807628, 770255983, 1249150122, 1555081692, 1996064986,
   2554220882, 2821834349, 2952996808, 3210313671, 3336571891, 3584528711,
   113926993, 338241895, 666307205, 773529912, 1294757372, 1396182291,
   1695183700, 1986661051, 2177026350, 2456956037, 2730485921, 2820302411,
   3259730800, 3345764771, 3516065817, 3600352804, 4094571909, 275423344,
   430227734, 506948616, 659060556, 883997877, 958139571, 1322822218,
   1537002063, 1747873779, 1955562222, 2024104815, 2227730452, 2361852424,
   2428436474, 2756734187, 3204031479, 3329325298]

def sha_H0 : List Nat :=
  [1779033703, 3144134277, 1013904242, 2773480762, 1359893119, 2600822924,
   528734635, 1541459225]

/-- Big-endian 8-byte encoding of the message bit length. -/
def beBytes8 (n : Nat) : List Nat :=
  [n >>> 56 % 256, n >>> 48 % 256, n >>> 40 % 256, n >>> 32 % 256,
   n >>> 24 % 256, n >>> 16 % 256, n >>> 8 % 256, n % 256]

/-- SHA-256 padding: append 0x80, zero bytes to 56 mod 64, then the 64-bit
big-endian bit length. -/
def sha256pad (msg : List Nat) : List Nat :=
  msg ++ [128] ++ List.replicate ((119 - msg.length % 64) % 64) 0 ++ beBytes8 (msg.length * 8)

/-- Big-endian grouping of bytes into 32-bit words. -/
def bytesToWords : List Nat → List Nat
  | b0 :: b1 :: b2 :: b3 :: rest =>
    (b0 * 16777216 + b1 * 65536 + b2 * 256 + b3) :: bytesToWords rest
  | _ => []

def scheduleStep (ws : List Nat) : List Nat :=
  let n := ws.length
  let g := fun i => ws.getD i 0
  ws ++ [w32 (g (n - 16) + smallSigma0 (g (n - 15)) + g (n - 7) + smallSigma1 (g (n - 2)))]

/-- Extend the 16 block words to the 64-entry message schedule. -/
def schedule (block : List Nat) : List Nat :=
  (List.range 48).foldl (fun ws _ => scheduleStep ws) (bytesToWords block)

/-- One compression round; the state is the 8-word vector [a,b,c,d,e,f,g,h]. -/
def compressWord (st : List Nat) (kw : Nat × Nat) : List Nat :=
  match st with
  | [a, b, c, d, e, f, g, h] =>
    let ch := (e &&& f) ^^^ ((4294967295 ^^^ e) &&& g)
    let t1 := w32 (h + bigSigma1 e + ch + kw.1 + kw.2)
    let maj := (a &&& b) ^^^ (a &&& c) ^^^ (b &&& c)
    let t2 := w32 (bigSigma0 a + maj)
    [w32 (t1 + t2), a, b, c, w32 (d + t1), e, f, g]
  | _ => st

def compressBlock (hs : List Nat) (block : List Nat) : List Nat :=
  let st := (sha_K.zip (schedule block)).foldl compressWord hs
  (hs.zip st).map (fun p => w32 (p.1 + p.2))

/-- Split into 64-byte chunks; the first argument is recursion fuel (one unit
per chunk suffices, the byte length is passed). -/
def chunksAux : Nat → List Nat → List (List Nat)
  | 0, _ => []
  | _, [] => []
  | fuel + 1, l => l.take 64 :: chunksAux fuel (l.drop 64)

def chunks64 (l : List Nat) : List (List Nat) :=
  chunksAux l.length l

def sha256words (msg : List Nat) : List Nat :=
  (chunks64 (sha256pad msg)).foldl compressBlock sha_H0

def hexChar (n : Nat) : Char :=
  if n < 10 then Char.ofNat (48 + n) else Char.ofNat (87 + n)

/-- Two lowercase hex characters of one byte. -/
def byteHex (b : Nat) : String :=
  String.mk [hexChar (b / 16 % 16), hexChar (b % 16)]

def wordToBytes (w : Nat) : List Nat :=
  [w >>> 24 % 256, w >>> 16 % 256, w >>> 8 % 256, w % 256]

/-- Lowercase hexadecimal SHA-256 digest of a byte list, as
`hashlib.sha256(bytes).hexdigest()` returns it. -/
def sha256hex (msg : List Nat) : String :=
  String.join (((sha256words msg).map wordToBytes).flatten.map byteHex)

/-- Validation of the SHA-256 model against the standard test vector for the
empty message. -/
theorem sha256hex_empty :
    sha256hex [] = "e3b0c44298fc1c149afbf4c8996fb92427ae41e4649b934ca495991b7852b855" := by
  rfl

/-- Validation of the SHA-256 model against the standard test vector for
"abc" (bytes 97, 98, 99). -/
theorem sha256hex_abc :
    sha256hex [97, 98, 99] =
      "ba7816bf8f01cfea414140de5dae2223b00361a396177a9cb410ff61f20015ad" := by
  rfl

/-! ## Data model (`ModuleInfo`, registry shape, filesystem effects) -/

/-- A value of a `hashes` table: `{"tag": ..., "path": ...}`
(`build_registry`, lines 187-190). -/
structure Location where
  tag : String
  path : String
deriving DecidableEq

/-- One per-name registry entry: `{"tags": {...}, "hashes": {...}}`. -/
structure RegistryEntry where
  tags : List (String × String)
  hashes : List (String × Location)
deriving DecidableEq

/-- The manifest: module name → entry (`build_registry`). -/
abbrev Registry := List (String × RegistryEntry)

/-- The `ModuleInfo` dataclass (lines 65-74). -/
structure ModuleInfo where
  name : String
  version : String
  path : List String
  source : List Nat
  metadata : List (String × String)
  sha256 : String
  versioned : Bool
deriving DecidableEq

/-- Filesystem mutations the tool can perform, recorded as explicit events. -/
inductive FsEffect where
  | mkdirP (p : List String)
  | writeFile (p : List String) (content : List Nat)
  | unlink (p : List String)
  | writeText (p : List String) (text : String)
  | rename (src dst : List String)
deriving DecidableEq

/-- One discovered `.js` file: its path relative to the root, its raw bytes,
and the metadata mapping the Node extraction harness would return for it.
Metadata values are modelled as the strings `str(value)` would produce, since
`load_module` only ever applies `str(...)` to them. -/
structure FileInput where
  rel : List String
  source : List Nat
  metadata : List (String × String)
deriving DecidableEq

/-! ## Embedded source functions -/

def DEFAULT_VERSION : String := "v1.0.0"

/-- Model of `str.lower()` on one character (the names, versions and tags involved are
ASCII; Unicode case folding is out of scope). -/
def asciiLower (c : Char) : Char :=
  if 'A' ≤ c ∧ c ≤ 'Z' then Char.ofNat (c.toNat + 32) else c

/-- Python `str.lower()`. -/
def pyLower (s : String) : String := String.mk (s.data.map asciiLower)

/-- The ASCII whitespace `str.strip()` removes. -/
def isPySpace (c : Char) : Bool :=
  c = ' ' || c = '\t' || c = '\n' || c = '\r' || c = '\x0b' || c = '\x0c'

/-- Python `str.strip()`. -/
def pyStrip (s : String) : String :=
  String.mk (((s.data.dropWhile isPySpace).reverse.dropWhile isPySpace).reverse)

/-- Model of `str(metadata.get(key, ""))`. -/
def pyStr (metadata : List (String × String)) (key : String) : String :=
  (metadata.lookup key).getD ""

/-- Model of `PurePath.as_posix()`: join segments with forward slashes. -/
def as_posix (parts : List String) : String := String.intercalate "/" parts

/-- Model of `path.relative_to(root)`; both call sites pass a path that extends `root`,
so it is modelled as dropping the root prefix. -/
def relative_to (root p : List String) : List String := p.drop root.length

def splitSegsAux : List Char → List Char → List (List Char)
  | [], acc => [acc.reverse]
  | c :: rest, acc =>
    if c = '/' then acc.reverse :: splitSegsAux rest [] else splitSegsAux rest (c :: acc)

/-- The step `Path(trimmed).expanduser().resolve()`, modelled as splitting on the
separator; `~`-expansion, cwd and symlink resolution are environment details
outside the scope of the claims. -/
def resolve_path (s : String) : List String :=
  ((splitSegsAux s.data []).map String.mk).filter (fun seg => seg != "")

/-- Embedding of `ensure_dir` (lines 80-86): error on a blank path, otherwise resolve the
directory and create it (with parents) idempotently. -/
def ensure_dir (path : String) : Except String (List String × List FsEffect) :=
  let trimmed := pyStrip path
  if trimmed = "" then Except.error "directory required"
  else Except.ok (resolve_path trimmed, [FsEffect.mkdirP (resolve_path trimmed)])

/-- Embedding of `is_versioned_path` (lines 125-134). -/
def is_versioned_path (relative_path : List String) (name version : String) : Bool :=
  if relative_path.length < 3 then false
  else
    match relative_path.reverse with
    | filename :: version_component :: _ =>
      pyLower filename == name ++ ".js" && pyLower version_component == pyLower version
    | _ => false

/-- Embedding of `load_module` (lines 98-122).  The byte read and the metadata-extraction
result arrive as inputs (`extract_metadata` runs an external Node process);
any extraction failure would propagate before this point. -/
def load_module (root rel : List String) (source : List Nat)
    (metadata : List (String × String)) : Except String ModuleInfo :=
  let path := root ++ rel
  let name := pyLower (pyStrip (pyStr metadata "name"))
  if name = "" then Except.error (as_posix path ++ ": metadata.name required")
  else
    let version0 := pyStrip (pyStr metadata "version")
    let version := if version0 = "" then DEFAULT_VERSION else version0
    Except.ok
      { name := name, version := version, path := path, source := source,
        metadata := metadata,
        sha256 := "sha256:" ++ sha256hex source,
        versioned := is_versioned_path rel name version }

/-- The loading loop of `discover_modules`: load each file in order, the first
failure aborting the whole scan. -/
def load_all (root : List String) : List FileInput → Except String (List ModuleInfo)
  | [] => Except.ok []
  | f :: rest =>
    match load_module root f.rel f.source f.metadata with
    | Except.error e => Except.error e
    | Except.ok m =>
      match load_all root rest with
      | Except.error e => Except.error e
      | Except.ok ms => Except.ok (m :: ms)

/-- Embedding of `discover_modules` (lines 89-95): the input list stands for the sorted
`root.rglob("*.js")` enumeration; files named `registry.json` are skipped. -/
def discover_modules (root : List String) (files : List FileInput) :
    Except String (List ModuleInfo) :=
  load_all root (files.filter (fun f => f.rel.getLastD "" != "registry.json"))

/-- Embedding of `materialize_module` (lines 157-168): the returned path, plus the
filesystem mutations performed (none when the module is already canonical). -/
def materialize_module (root : List String) (m : ModuleInfo) :
    List String × List FsEffect :=
  if m.versioned then (m.path, [])
  else
    (root ++ [m.name, m.version, m.name ++ ".js"],
     [FsEffect.mkdirP (root ++ [m.name, m.version]),
      FsEffect.writeFile (root ++ [m.name, m.version, m.name ++ ".js"]) m.source,
      FsEffect.unlink m.path])

/-- The path `build_registry` records for a module: the materialized path when
the write flag is set, the original path otherwise (lines 182-184). -/
def module_target_path (root : List String) (write : Bool) (m : ModuleInfo) : List String :=
  if write then (materialize_module root m).1 else m.path

def materialize_effects (root : List String) (m : ModuleInfo) : List FsEffect :=
  (materialize_module root m).2

/-- The non-`latest` tag keys of a `tags` table (`pick_latest_tag`, line 172). -/
def tagCandidates (tags : List (String × String)) : List String :=
  (tags.map Prod.fst).filter (fun t => t != "latest")

/-- Model of `sorted(candidates)[-1]`: the lexicographically greatest string. -/
def maxString : List String → String
  | [] => ""
  | [x] => x
  | x :: y :: rest => max x (maxString (y :: rest))

/-- Embedding of `pick_latest_tag` (lines 171-175). `next(iter(tags.values()), "")` is the
first value in insertion order (or `""` for an empty dict); the indexing
`tags[sorted(candidates)[-1]]` always succeeds because the candidate is a key,
so the `getD ""` default is unreachable. -/
def pick_latest_tag (tags : List (String × String)) : String :=
  if tagCandidates tags = [] then
    match tags with
    | [] => ""
    | (_, v) :: _ => v
  else (tags.lookup (maxString (tagCandidates tags))).getD ""

/-- The loop body of `build_registry` (lines 180-190): fetch-or-create the
name's entry, then write the `tags` and `hashes` bindings. -/
def fold_step (root : List String) (write : Bool) (reg : Registry) (m : ModuleInfo) : Registry :=
  let entry := (reg.lookup m.name).getD ⟨[], []⟩
  let rel := relative_to root (module_target_path root write m)
  setk reg m.name
    ⟨setk entry.tags m.version m.sha256,
     setk entry.hashes m.sha256 ⟨m.version, as_posix rel⟩⟩

/-- The module loop of `build_registry`, folded in discovery order. -/
def build_fold (root : List String) (write : Bool) : List ModuleInfo → Registry → Registry
  | [], reg => reg
  | m :: rest, reg => build_fold root write rest (fold_step root write reg m)

/-- The `latest` pass applied to one entry (lines 192-194). -/
def latestify (e : RegistryEntry) : RegistryEntry :=
  if e.tags = [] then e
  else { e with tags := setk e.tags "latest" (pick_latest_tag e.tags) }

def apply_latest (reg : Registry) : Registry :=
  reg.map (fun p => (p.1, latestify p.2))

/-- The filesystem mutations `build_registry` performs: one
`materialize_module` call per module when the write flag is set, none
otherwise. -/
def build_effects (root : List String) (write : Bool) (modules : List ModuleInfo) :
    List FsEffect :=
  if write then (modules.map (materialize_effects root)).flatten else []

/-- Embedding of `build_registry` (lines 178-195). -/
def build_registry (modules : List ModuleInfo) (root : List String) (write : Bool) :
    Registry × List FsEffect :=
  (apply_latest (build_fold root write modules []), build_effects root write modules)

/-! ## Manifest serialization and `write_registry` -/

def jsonEscape (s : String) : String :=
  s.data.foldr
    (fun c acc =>
      (if c = '\\' then "\\\\" else if c = '"' then "\\\"" else String.singleton c) ++ acc) ""

def jsonStr (s : String) : String := "\"" ++ jsonEscape s ++ "\""

/-- Rendering a string-valued dict as `json.dumps` does, at nesting `ind`. -/
def dumpStrMap (ind : String) (d : List (String × String)) : String :=
  if d = [] then "\x7b\x7d"
  else
    "\x7b\n" ++
      String.intercalate ",\n"
        (d.map (fun p => ind ++ "  " ++ jsonStr p.1 ++ ": " ++ jsonStr p.2)) ++
      "\n" ++ ind ++ "\x7d"

def dumpLocation (ind : String) (loc : Location) : String :=
  "\x7b\n" ++ ind ++ "  " ++ jsonStr "tag" ++ ": " ++ jsonStr loc.tag ++ ",\n" ++
    ind ++ "  " ++ jsonStr "path" ++ ": " ++ jsonStr loc.path ++ "\n" ++ ind ++ "\x7d"

def dumpLocMap (ind : String) (d : List (String × Location)) : String :=
  if d = [] then "\x7b\x7d"
  else
    "\x7b\n" ++
      String.intercalate ",\n"
        (d.map (fun p => ind ++ "  " ++ jsonStr p.1 ++ ": " ++ dumpLocation (ind ++ "  ") p.2)) ++
      "\n" ++ ind ++ "\x7d"

def dumpEntry (ind : String) (e : RegistryEntry) : String :=
  "\x7b\n" ++ ind ++ "  " ++ jsonStr "tags" ++ ": " ++ dumpStrMap (ind ++ "  ") e.tags ++ ",\n" ++
    ind ++ "  " ++ jsonStr "hashes" ++ ": " ++ dumpLocMap (ind ++ "  ") e.hashes ++ "\n" ++
    ind ++ "\x7d"

/-- Model of `json.dumps(registry, indent=2)`: keys render in dict insertion order. -/
def serialize_registry (reg : Registry) : String :=
  if reg = [] then "\x7b\x7d"
  else
    "\x7b\n" ++
      String.intercalate ",\n"
        (reg.map (fun p => "  " ++ jsonStr p.1 ++ ": " ++ dumpEntry "  " p.2)) ++
      "\n\x7d"

/-- A filesystem state: text-file path → content. -/
abbrev FsState := List (List String × String)

def fsRemove (fs : FsState) (p : List String) : FsState :=
  fs.filter (fun q => q.1 != p)

/-- Model of `Path.replace`: atomically move `src` over `dst`. -/
def fsRename (fs : FsState) (src dst : List String) : FsState :=
  match fs.lookup src with
  | none => fs
  | some c => setk (fsRemove fs src) dst c

/-- Embedding of `write_registry` (lines 198-205) over an explicit file state.  `tmpOk`
injects success or failure of the temporary-file write; on failure the raised
OSError becomes a BootstrapError, the temporary file may be left holding
arbitrary partial content (`partialContent`), and the rename never runs. -/
def write_registry (root : List String) (registry : Registry) (fs : FsState)
    (tmpOk : Bool) (partialContent : String) : Except String Unit × FsState :=
  let tmp := root ++ ["registry.json.tmp"]
  let target := root ++ ["registry.json"]
  if tmpOk then
    (Except.ok (), fsRename (setk fs tmp (serialize_registry registry ++ "\n")) tmp target)
  else
    (Except.error "write registry: OSError", setk fs tmp partialContent)

/-! ## The `main` pipeline -/

/-- The manifest writes `write_registry` performs on its success path,
as effect events (used by the `main` model). -/
def write_registry_effects (root : List String) (reg : Registry) : List FsEffect :=
  [FsEffect.writeText (root ++ ["registry.json.tmp"]) (serialize_registry reg ++ "\n"),
   FsEffect.rename (root ++ ["registry.json.tmp"]) (root ++ ["registry.json"])]

/-- Embedding of `main` (lines 292-310) up to and including the manifest write: resolve the
root, discover modules, reject an empty scan, build the registry, write the
manifest.  The usage-report stage that follows never mutates the registry or
the filesystem manifest. -/
def main_model (rootArg : String) (files : List FileInput) (write : Bool) :
    Except String (Registry × List FsEffect) :=
  match ensure_dir rootArg with
  | Except.error e => Except.error e
  | Except.ok (root, rootEffs) =>
    match discover_modules root files with
    | Except.error e => Except.error e
    | Except.ok modules =>
      if modules = [] then
        Except.error ("no JavaScript strategies found under " ++ as_posix root)
      else
        let (reg, effs) := build_registry modules root write
        Except.ok (reg, rootEffs ++ effs ++ write_registry_effects root reg)

def is_manifest_write (root : List String) : FsEffect → Bool
  | FsEffect.writeText p _ => p == root ++ ["registry.json.tmp"]
  | FsEffect.rename _ dst => dst == root ++ ["registry.json"]
  | _ => false

/-- Whether a finished run wrote the manifest; an aborted run never reaches
`write_registry`, so it writes nothing. -/
def writes_manifest (root : List String) :
    Except String (Registry × List FsEffect) → Bool
  | Except.error _ => false
  | Except.ok (_, effs) => effs.any (is_manifest_write root)

/-! ## Usage reconciliation (`report_usage`, lines 242-273) -/

/-- One usage record.  `count` models `int(entry.get("count", 0))`: `some n`
when the field is absent (then `n = 0`) or parses to the integer `n`; `none`
when `int(...)` raises TypeError/ValueError, which the code coerces to 0. -/
structure UsageEntry where
  strategy : String
  hash : String
  count : Option Int
deriving DecidableEq

/-- The index-building loop (lines 243-249): lowercased, trimmed name →
trimmed hash → last-seen original record, skipping blank names or hashes. -/
def build_usage_index (usage : List UsageEntry) :
    List (String × List (String × UsageEntry)) :=
  usage.foldl
    (fun idx e =>
      let name := pyLower (pyStrip e.strategy)
      let hash_value := pyStrip e.hash
      if name = "" || hash_value = "" then idx
      else setk idx name (setk ((idx.lookup name).getD []) hash_value e))
    []

/-- The `count` the reconciliation loop computes for a looked-up record. -/
def usage_count : Option UsageEntry → Int
  | some e => e.count.getD 0
  | none => 0

/-- The inner loop over one entry's `hashes` (lines 254-264). -/
def unused_for_entry (idx : List (String × List (String × UsageEntry)))
    (name : String) (entry : RegistryEntry) : List (String × String × String) :=
  entry.hashes.filterMap
    (fun p =>
      let ue := ((idx.lookup (pyLower name)).getD []).lookup p.1
      if ue.isNone || usage_count ue == 0 then
        some (name, (if p.2.tag ≠ "" then p.2.tag else "(untagged)"), p.1)
      else none)

/-- Python tuple ordering on (name, tag, hash). -/
def tripleLe (a b : String × String × String) : Bool :=
  decide (a.1 < b.1) ||
    (a.1 == b.1 &&
      (decide (a.2.1 < b.2.1) || (a.2.1 == b.2.1 && decide (a.2.2 ≤ b.2.2))))

def insertTriple (x : String × String × String) :
    List (String × String × String) → List (String × String × String)
  | [] => [x]
  | y :: rest => if tripleLe x y then x :: y :: rest else y :: insertTriple x rest

/-- Model of `sorted(unused)`. -/
def sortTriples (l : List (String × String × String)) : List (String × String × String) :=
  l.foldr insertTriple []

/-- Embedding of `report_usage` (lines 242-273), returning the sorted unused list that the
code prints (empty list = the "no unused revisions" outcome). -/
def report_usage (usage : List UsageEntry) (registry : Registry) :
    List (String × String × String) :=
  let idx := build_usage_index usage
  sortTriples ((registry.map (fun p => unused_for_entry idx p.1 p.2)).flatten)

/-! ## Structural lemmas about the registry fold -/

theorem apply_latest_lookup (reg : Registry) (n : String) :
    (apply_latest reg).lookup n = (reg.lookup n).map latestify := by
  induction reg with
  | nil => simp [apply_latest, List.lookup]
  | cons p rest ih =>
    obtain ⟨k, e⟩ := p
    by_cases h : n == k
    · simp [apply_latest, List.lookup, h]
    · simp only [apply_latest, List.map_cons, List.lookup, h] at ih ⊢
      simpa [apply_latest] using ih

/-- Invariant of `build_registry`'s module loop after folding `processed`. -/
structure FoldInv (root : List String) (write : Bool) (processed : List ModuleInfo)
    (reg : Registry) : Prop where
  tags_ne : ∀ n e, reg.lookup n = some e → e.tags ≠ []
  tags_src : ∀ n e t v, reg.lookup n = some e → e.tags.lookup t = some v →
    ∃ m, m ∈ processed ∧ m.name = n ∧ m.version = t ∧ m.sha256 = v
  hashes_src : ∀ n e h loc, reg.lookup n = some e → e.hashes.lookup h = some loc →
    ∃ m, m ∈ processed ∧ m.name = n ∧ m.sha256 = h ∧
      loc = ⟨m.version, as_posix (relative_to root (module_target_path root write m))⟩
  mod_tag : ∀ m, m ∈ processed → ∃ e, reg.lookup m.name = some e ∧
    ∃ v, e.tags.lookup m.version = some v
  mod_hash : ∀ m, m ∈ processed → ∃ e loc, reg.lookup m.name = some e ∧
    e.hashes.lookup m.sha256 = some loc

theorem foldInv_nil (root : List String) (write : Bool) :
    FoldInv root write [] [] := by
  refine ⟨?_, ?_, ?_, ?_, ?_⟩ <;> intros <;> simp_all [List.lookup]

theorem foldInv_step (root : List String) (write : Bool) (p : List ModuleInfo)
    (reg : Registry) (m : ModuleInfo) (hinv : FoldInv root write p reg) :
    FoldInv root write (p ++ [m]) (fold_step root write reg m) := by
  classical
  set eOld : RegistryEntry := (reg.lookup m.name).getD ⟨[], []⟩ with heOld
  set locM : Location :=
    ⟨m.version, as_posix (relative_to root (module_target_path root write m))⟩ with hlocM
  set newE : RegistryEntry :=
    ⟨setk eOld.tags m.version m.sha256, setk eOld.hashes m.sha256 locM⟩ with hnewE
  have hstep : fold_step root write reg m = setk reg m.name newE := rfl
  have hlook_self : (setk reg m.name newE).lookup m.name = some newE :=
    lookup_setk_self reg m.name newE
  constructor
  · -- tags_ne
    intro n e he
    rw [hstep] at he
    by_cases hn : n = m.name
    · subst hn
      rw [hlook_self] at he
      cases he
      exact setk_ne_nil _ _ _
    · rw [lookup_setk_ne reg m.name n newE hn] at he
      exact hinv.tags_ne n e he
  · -- tags_src
    intro n e t v he hl
    rw [hstep] at he
    by_cases hn : n = m.name
    · subst hn
      rw [hlook_self] at he
      cases he
      by_cases ht : t = m.version
      · subst ht
        rw [lookup_setk_self] at hl
        cases hl
        exact ⟨m, by simp, rfl, rfl, rfl⟩
      · rw [lookup_setk_ne _ _ _ _ ht] at hl
        cases hreg : reg.lookup m.name with
        | none => rw [heOld] at hl; simp [hreg, List.lookup] at hl
        | some e₀ =>
          have : eOld = e₀ := by rw [heOld, hreg]; rfl
          rw [this] at hl
          obtain ⟨m', hm', h1, h2, h3⟩ := hinv.tags_src m.name e₀ t v hreg hl
          exact ⟨m', List.mem_append_left _ hm', h1, h2, h3⟩
    · rw [lookup_setk_ne reg m.name n newE hn] at he
      obtain ⟨m', hm', h1, h2, h3⟩ := hinv.tags_src n e t v he hl
      exact ⟨m', List.mem_append_left _ hm', h1, h2, h3⟩
  · -- hashes_src
    intro n e h loc he hl
    rw [hstep] at he
    by_cases hn : n = m.name
    · subst hn
      rw [hlook_self] at he
      cases he
      by_cases hh : h = m.sha256
      · subst hh
        rw [lookup_setk_self] at hl
        cases hl
        exact ⟨m, by simp, rfl, rfl, rfl⟩
      · rw [lookup_setk_ne _ _ _ _ hh] at hl
        cases hreg : reg.lookup m.name with
        | none => rw [heOld] at hl; simp [hreg, List.lookup] at hl
        | some e₀ =>
          have : eOld = e₀ := by rw [heOld, hreg]; rfl
          rw [this] at hl
          obtain ⟨m', hm', h1, h2, h3⟩ := hinv.hashes_src m.name e₀ h loc hreg hl
          exact ⟨m', List.mem_append_left _ hm', h1, h2, h3⟩
    · rw [lookup_setk_ne reg m.name n newE hn] at he
      obtain ⟨m', hm', h1, h2, h3⟩ := hinv.hashes_src n e h loc he hl
      exact ⟨m', List.mem_append_left _ hm', h1, h2, h3⟩
  · -- mod_tag
    intro m' hm'
    rw [hstep]
    rcases List.mem_append.mp hm' with hp | hm
    · obtain ⟨e₁, he₁, v₁, hv₁⟩ := hinv.mod_tag m' hp
      by_cases hn : m'.name = m.name
      · rw [hn, hlook_self]
        refine ⟨newE, rfl, ?_⟩
        have he₁' : reg.lookup m.name = some e₁ := hn ▸ he₁
        have heq : eOld = e₁ := by rw [heOld, he₁']; rfl
        by_cases ht : m'.version = m.version
        · exact ⟨m.sha256, by rw [hnewE]; simpa [ht] using lookup_setk_self eOld.tags m.version m.sha256⟩
        · refine ⟨v₁, ?_⟩
          rw [hnewE]
          show (setk eOld.tags m.version m.sha256).lookup m'.version = some v₁
          rw [lookup_setk_ne _ _ _ _ ht, heq]
          exact hv₁
      · rw [lookup_setk_ne reg m.name m'.name newE hn]
        exact ⟨e₁, he₁, v₁, hv₁⟩
    · have hmm : m' = m := by simpa using hm
      subst hmm
      rw [hlook_self]
      refine ⟨newE, rfl, m'.sha256, ?_⟩
      rw [hnewE]
      exact lookup_setk_self eOld.tags m'.version m'.sha256
  · -- mod_hash
    intro m' hm'
    rw [hstep]
    rcases List.mem_append.mp hm' with hp | hm
    · obtain ⟨e₁, loc₁, he₁, hl₁⟩ := hinv.mod_hash m' hp
      by_cases hn : m'.name = m.name
      · rw [hn, hlook_self]
        have he₁' : reg.lookup m.name = some e₁ := hn ▸ he₁
        have heq : eOld = e₁ := by rw [heOld, he₁']; rfl
        by_cases hh : m'.sha256 = m.sha256
        · exact ⟨newE, locM, rfl, by rw [hnewE]; simpa [hh] using lookup_setk_self eOld.hashes m.sha256 locM⟩
        · refine ⟨newE, loc₁, rfl, ?_⟩
          rw [hnewE]
          show (setk eOld.hashes m.sha256 locM).lookup m'.sha256 = some loc₁
          rw [lookup_setk_ne _ _ _ _ hh, heq]
          exact hl₁
      · rw [lookup_setk_ne reg m.name m'.name newE hn]
        exact ⟨e₁, loc₁, he₁, hl₁⟩
    · have hmm : m' = m := by simpa using hm
      subst hmm
      rw [hlook_self]
      refine ⟨newE, locM, rfl, ?_⟩
      rw [hnewE]
      exact lookup_setk_self eOld.hashes m'.sha256 locM

theorem build_fold_inv (root : List String) (write : Bool) :
    ∀ (ms p : List ModuleInfo) (reg : Registry), FoldInv root write p reg →
      FoldInv root write (p ++ ms) (build_fold root write ms reg) := by
  intro ms
  induction ms with
  | nil => intro p reg h; simpa [build_fold] using h
  | cons m rest ih =>
    intro p reg h
    have h2 := ih (p ++ [m]) (fold_step root write reg m) (foldInv_step root write p reg m h)
    simpa [build_fold, List.append_assoc] using h2

theorem build_fold_inv_modules (root : List String) (write : Bool)
    (modules : List ModuleInfo) :
    FoldInv root write modules (build_fold root write modules []) := by
  simpa using build_fold_inv root write modules [] [] (foldInv_nil root write)

/-! ## Lemmas about `pick_latest_tag` and the unused-report sort -/

theorem maxString_mem (l : List String) (h : l ≠ []) : maxString l ∈ l := by
  induction l with
  | nil => exact absurd rfl h
  | cons x rest ih =>
    cases rest with
    | nil => simp [maxString]
    | cons y t =>
      have hm := ih (by simp)
      rcases max_choice x (maxString (y :: t)) with hx | hx
      · simp [maxString, hx]
      · rw [show maxString (x :: y :: t) = max x (maxString (y :: t)) from rfl, hx]
        exact List.mem_cons_of_mem x hm

theorem le_maxString (l : List String) (x : String) (hx : x ∈ l) : x ≤ maxString l := by
  induction l with
  | nil => simp at hx
  | cons a rest ih =>
    cases rest with
    | nil =>
      have : x = a := by simpa using hx
      simp [maxString, this]
    | cons y t =>
      rw [show maxString (a :: y :: t) = max a (maxString (y :: t)) from rfl]
      rcases List.mem_cons.mp hx with h | h
      · subst h; exact le_max_left _ _
      · exact le_trans (ih h) (le_max_right _ _)

theorem tagCandidates_setk_latest (d : List (String × String)) (v : String) :
    tagCandidates (setk d "latest" v) = tagCandidates d := by
  induction d with
  | nil => simp [setk, tagCandidates]
  | cons p rest ih =>
    obtain ⟨k, w⟩ := p
    by_cases h : k == "latest"
    · have hk : k = "latest" := by simp_all
      subst hk
      simp [setk, tagCandidates]
    · have hk : (k != "latest") = true := by simp_all
      simp only [setk, h, if_false, Bool.false_eq_true]
      simp only [tagCandidates, List.map_cons, List.filter_cons, hk] at ih ⊢
      simp [ih]

theorem mem_tagCandidates (d : List (String × String)) (t : String) :
    t ∈ tagCandidates d ↔ t ∈ d.map Prod.fst ∧ t ≠ "latest" := by
  simp [tagCandidates]

theorem mem_insertTriple (x a : String × String × String)
    (l : List (String × String × String)) :
    a ∈ insertTriple x l ↔ a = x ∨ a ∈ l := by
  induction l with
  | nil => simp [insertTriple]
  | cons y rest ih =>
    by_cases h : tripleLe x y
    · simp [insertTriple, h]
    · simp [insertTriple, h, ih]
      tauto

theorem mem_sortTriples (l : List (String × String × String)) (a : String × String × String) :
    a ∈ sortTriples l ↔ a ∈ l := by
  induction l with
  | nil => simp [sortTriples]
  | cons x rest ih =>
    simp only [sortTriples, List.foldr_cons] at ih ⊢
    rw [mem_insertTriple]
    simp [ih]

theorem latestify_hashes (e : RegistryEntry) : (latestify e).hashes = e.hashes := by
  unfold latestify
  split <;> rfl

theorem pick_mem_values (tags : List (String × String)) (h : tags ≠ []) :
    pick_latest_tag tags ∈ tags.map Prod.snd := by
  unfold pick_latest_tag
  split
  · cases tags with
    | nil => exact absurd rfl h
    | cons p rest => simp
  case isFalse hc =>
    have hmem := maxString_mem _ hc
    rw [mem_tagCandidates] at hmem
    obtain ⟨v, hv⟩ := mem_keys_lookup tags _ hmem.1
    rw [hv]
    simpa using lookup_mem_values tags _ v hv

theorem lookup_const_values {κ α : Type} [BEq κ] [LawfulBEq κ] (d : List (κ × α)) (c : α)
    (hall : ∀ p, p ∈ d → p.2 = c) (k : κ) (hk : k ∈ d.map Prod.fst) :
    d.lookup k = some c := by
  obtain ⟨v, hv⟩ := mem_keys_lookup d k hk
  have hvc : v = c := hall _ (lookup_mem d k v hv)
  rw [hv, hvc]

theorem mem_nodup_keys_eq {κ α : Type} [BEq κ] [LawfulBEq κ] (d : List (κ × α))
    (hnd : (d.map Prod.fst).Nodup) (k : κ) (v v' : α)
    (h1 : (k, v) ∈ d) (h2 : d.lookup k = some v') : v = v' := by
  induction d with
  | nil => simp at h1
  | cons p rest ih =>
    obtain ⟨k0, a0⟩ := p
    rw [List.map_cons, List.nodup_cons] at hnd
    by_cases hq : k == k0
    · have hk : k = k0 := by simp_all
      simp only [List.lookup, hq] at h2
      cases h2
      rcases List.mem_cons.mp h1 with h3 | h3
      · exact congrArg Prod.snd h3
      · exfalso
        refine hnd.1 ?_
        subst hk
        exact List.mem_map.mpr ⟨(k, v), h3, rfl⟩
    · have hk : k ≠ k0 := by simp_all
      simp only [List.lookup, hq] at h2
      rcases List.mem_cons.mp h1 with h3 | h3
      · exact absurd (congrArg Prod.fst h3) hk
      · exact ih hnd.2 h3 h2

/-! ## Claim C5: content hash is a pure function of the bytes -/

/-- C5: any two successful `load_module` results for byte-identical source
contents carry the same `contentHash`, regardless of root, path or declared
metadata, and that hash is the string "sha256:" followed by the lowercase
hexadecimal SHA-256 digest of the raw bytes. -/
theorem C5_contentHash_pure (root1 rel1 root2 rel2 : List String)
    (src : List Nat) (md1 md2 : List (String × String)) (m1 m2 : ModuleInfo)
    (h1 : load_module root1 rel1 src md1 = Except.ok m1)
    (h2 : load_module root2 rel2 src md2 = Except.ok m2) :
    m1.sha256 = m2.sha256 ∧ m1.sha256 = "sha256:" ++ sha256hex src := by
  simp only [load_module] at h1 h2
  split at h1
  · cases h1
  · split at h2
    · cases h2
    · cases h1
      cases h2
      exact ⟨rfl, rfl⟩

def C5m1 : ModuleInfo :=
  { name := "foo", version := "v1.0.0", path := ["r1", "a.js"], source := [104, 105],
    metadata := [("name", "foo")], sha256 := "sha256:" ++ sha256hex [104, 105],
    versioned := false }

def C5m2 : ModuleInfo :=
  { name := "bar", version := "v9", path := ["r2", "sub", "b.js"], source := [104, 105],
    metadata := [("name", "Bar"), ("version", "v9")],
    sha256 := "sha256:" ++ sha256hex [104, 105], versioned := false }

theorem C5_contentHash_pure_witness :
    load_module ["r1"] ["a.js"] [104, 105] [("name", "foo")] = Except.ok C5m1 ∧
    load_module ["r2"] ["sub", "b.js"] [104, 105] [("name", "Bar"), ("version", "v9")]
      = Except.ok C5m2 ∧
    C5m1.sha256 = C5m2.sha256 ∧ C5m1.sha256 = "sha256:" ++ sha256hex [104, 105] :=
  ⟨by rfl, by rfl,
    (C5_contentHash_pure ["r1"] ["a.js"] ["r2"] ["sub", "b.js"] [104, 105]
      [("name", "foo")] [("name", "Bar"), ("version", "v9")] C5m1 C5m2 (by rfl) (by rfl)).1,
    (C5_contentHash_pure ["r1"] ["a.js"] ["r2"] ["sub", "b.js"] [104, 105]
      [("name", "foo")] [("name", "Bar"), ("version", "v9")] C5m1 C5m2 (by rfl) (by rfl)).2⟩

/-! ## Claim C4: the canonical-layout check -/

/-- Spec-side predicate, worded exactly as claim C4 states it: canonical iff
the relative path has exactly three segments, the final segment
case-insensitively equals `<name>.js`, and the parent segment
case-insensitively equals the declared version. -/
def claimed_canonical_exact (rel : List String) (name version : String) : Bool :=
  match rel with
  | [_, parent, final] => pyLower final == name ++ ".js" && pyLower parent == pyLower version
  | _ => false

def C4mod : ModuleInfo :=
  { name := "foo", version := "v1", path := ["extra", "foo", "v1", "foo.js"], source := [],
    metadata := [("name", "foo"), ("version", "v1")],
    sha256 := "sha256:" ++ sha256hex [], versioned := true }

/-- C4 fails as stated: a four-segment relative path whose last two segments
match is classified canonical by the code (`is_versioned_path` only requires
at least three segments), while the claim's exactly-three-segment layout
predicate rejects it. -/
theorem C4_counterexample :
    load_module [] ["extra", "foo", "v1", "foo.js"] [] [("name", "foo"), ("version", "v1")]
      = Except.ok C4mod ∧
    C4mod.versioned = true ∧
    C4mod.name = "foo" ∧ C4mod.version = "v1" ∧
    claimed_canonical_exact ["extra", "foo", "v1", "foo.js"] "foo" "v1" = false :=
  ⟨by rfl, by decide, by decide, by decide, by decide⟩

theorem is_versioned_path_iff (rel : List String) (n v : String) :
    is_versioned_path rel n v = true ↔
      3 ≤ rel.length ∧ pyLower (rel.getLastD "") = n ++ ".js" ∧
        pyLower (rel.getD (rel.length - 2) "") = pyLower v := by
  unfold is_versioned_path
  by_cases hlen : rel.length < 3
  · simp only [hlen, if_true]
    constructor
    · intro h; cases h
    · intro h; omega
  · rw [if_neg hlen]
    cases hrev : rel.reverse with
    | nil =>
      exfalso
      have : rel = [] := by simpa using congrArg List.reverse hrev
      subst this
      simp at hlen
    | cons f tail =>
      cases tail with
      | nil =>
        exfalso
        have : rel = [f] := by simpa using congrArg List.reverse hrev
        subst this
        simp at hlen
      | cons vc rest =>
        have hrel : rel = rest.reverse ++ [vc] ++ [f] := by
          have := congrArg List.reverse hrev
          simpa [List.reverse_cons, List.append_assoc] using this
        have hlast : rel.getLastD "" = f := by
          rw [hrel, List.append_assoc]
          simp [List.getLastD_concat]
        have hlen2 : rel.length = rest.length + 2 := by
          rw [hrel]; simp
        have hidx : rel.length - 2 = rest.length := by omega
        have hpar : rel.getD (rel.length - 2) "" = vc := by
          rw [List.getD_eq_getElem?_getD, hidx, hrel, List.append_assoc]
          rw [List.getElem?_append_right (by simp)]
          simp
        rw [hlast, hpar]
        constructor
        · intro h
          rw [Bool.and_eq_true, beq_iff_eq, beq_iff_eq] at h
          exact ⟨by omega, h.1, h.2⟩
        · intro h
          rw [Bool.and_eq_true, beq_iff_eq, beq_iff_eq]
          exact ⟨h.2.1, h.2.2⟩

/-- C4 (amended): `load_module` marks a module canonical iff its relative
path has AT LEAST three segments, its final segment case-insensitively equals
`<name>.js`, and the parent segment case-insensitively equals the declared
version; fewer than three segments is never canonical. -/
theorem C4_amended_canonical (root rel : List String) (src : List Nat)
    (md : List (String × String)) (m : ModuleInfo)
    (h : load_module root rel src md = Except.ok m) :
    m.versioned = true ↔
      3 ≤ rel.length ∧ pyLower (rel.getLastD "") = m.name ++ ".js" ∧
        pyLower (rel.getD (rel.length - 2) "") = pyLower m.version := by
  simp only [load_module] at h
  split at h
  · cases h
  · cases h
    exact is_versioned_path_iff rel _ _

def C4mod3 : ModuleInfo :=
  { name := "foo", version := "v1", path := ["foo", "v1", "foo.js"], source := [],
    metadata := [("name", "foo"), ("version", "v1")],
    sha256 := "sha256:" ++ sha256hex [], versioned := true }

theorem C4_amended_canonical_witness :
    C4mod3.versioned = true :=
  (C4_amended_canonical [] ["foo", "v1", "foo.js"] [] [("name", "foo"), ("version", "v1")]
      C4mod3 (by rfl)).mpr (by refine ⟨by decide, ?_, ?_⟩ <;> decide)

/-! ## Claim C1: hashes-tags invariant -/

def C1modA : ModuleInfo :=
  { name := "a", version := "v1", path := ["r", "x.js"], source := [0],
    metadata := [("name", "a"), ("version", "v1")],
    sha256 := "sha256:" ++ sha256hex [0], versioned := false }

def C1modB : ModuleInfo :=
  { C1modA with path := ["r", "y.js"], source := [1], sha256 := "sha256:" ++ sha256hex [1] }

def C1entry : RegistryEntry :=
  ((build_registry [C1modA, C1modB] ["r"] false).1.lookup "a").getD ⟨[], []⟩

/-- C1 fails as stated: with two modules of the same name and the same version
but different content bytes, the earlier module's hash remains a key of
`hashes` while no tag (not even `latest`) has it as its value. -/
theorem C1_counterexample :
    (build_registry [C1modA, C1modB] ["r"] false).1.lookup "a" = some C1entry ∧
    ("sha256:" ++ sha256hex [0]) ∈ C1entry.hashes.map Prod.fst ∧
    ("sha256:" ++ sha256hex [0]) ∉ C1entry.tags.map Prod.snd :=
  ⟨by rfl, by decide, by decide⟩

/-- C1 (amended): in every registry built by `build_registry`, every hash key
of a name's `hashes` table also occurs as the value of some tag in that name's
`tags` table, PROVIDED that no two input modules with the same name and the
same version have different content hashes and that no module declares the
literal version string "latest". -/
theorem C1_hash_tag_invariant (modules : List ModuleInfo) (root : List String) (write : Bool)
    (hvh : ∀ m1 m2, m1 ∈ modules → m2 ∈ modules → m1.name = m2.name →
      m1.version = m2.version → m1.sha256 = m2.sha256)
    (hnl : ∀ m, m ∈ modules → m.version ≠ "latest")
    (n : String) (e : RegistryEntry)
    (he : (build_registry modules root write).1.lookup n = some e)
    (h : String) (hh : h ∈ e.hashes.map Prod.fst) :
    h ∈ e.tags.map Prod.snd := by
  have hinv := build_fold_inv_modules root write modules
  have he' : (apply_latest (build_fold root write modules [])).lookup n = some e := he
  rw [apply_latest_lookup] at he'
  cases hre : (build_fold root write modules []).lookup n with
  | none => rw [hre] at he'; cases he'
  | some e0 =>
    rw [hre] at he'
    have heq : e = latestify e0 := by cases he'; rfl
    have hhs : e.hashes = e0.hashes := by rw [heq, latestify_hashes]
    rw [hhs] at hh
    obtain ⟨loc, hloc⟩ := mem_keys_lookup e0.hashes h hh
    obtain ⟨m, hm, hmn, hms, _⟩ := hinv.hashes_src n e0 h loc hre hloc
    obtain ⟨e1, he1, v, hv⟩ := hinv.mod_tag m hm
    rw [hmn, hre] at he1
    have he1' : e1 = e0 := by cases he1; rfl
    subst he1'
    have hveq : v = m.sha256 := by
      obtain ⟨m2, hm2, hn2, hver2, hsha2⟩ := hinv.tags_src n e1 m.version v hre hv
      rw [← hsha2]
      exact hvh m2 m hm2 hm (by rw [hn2, hmn]) hver2
    have hv' : e1.tags.lookup m.version = some h := by rw [hv, hveq, hms]
    have htne := hinv.tags_ne n e1 hre
    have hetags : e.tags = setk e1.tags "latest" (pick_latest_tag e1.tags) := by
      rw [heq]; unfold latestify; rw [if_neg htne]
    have hfin : e.tags.lookup m.version = some h := by
      rw [hetags, lookup_setk_ne _ _ _ _ (hnl m hm)]
      exact hv'
    exact lookup_mem_values _ _ _ hfin

def C1witEntry : RegistryEntry :=
  ((build_registry [C1modA] ["r"] false).1.lookup "a").getD ⟨[], []⟩

theorem C1_hash_tag_invariant_witness :
    (build_registry [C1modA] ["r"] false).1.lookup "a" = some C1witEntry ∧
    ("sha256:" ++ sha256hex [0]) ∈ C1witEntry.hashes.map Prod.fst ∧
    ("sha256:" ++ sha256hex [0]) ∈ C1witEntry.tags.map Prod.snd :=
  ⟨by rfl, by decide,
    C1_hash_tag_invariant [C1modA] ["r"] false
      (by
        intro m1 m2 h1 h2 _ _
        have e1 : m1 = C1modA := by simpa using h1
        have e2 : m2 = C1modA := by simpa using h2
        rw [e1, e2])
      (by
        intro m hm
        have hm' : m = C1modA := by simpa using hm
        rw [hm']
        decide)
      "a" C1witEntry (by rfl) ("sha256:" ++ sha256hex [0]) (by decide)⟩

/-! ## Claim C2: the `latest` tag -/

/-- C2: for a registry built from a non-empty module list, every name's `tags`
table contains a `latest` key whose value is the hash bound to the
lexicographically greatest non-`latest` tag; when no non-`latest` tag exists,
the value falls back to a hash already present among the entry's tag values
before the `latest` pass. -/
theorem C2_latest_tag (modules : List ModuleInfo) (root : List String) (write : Bool)
    (hne : modules ≠ []) (n : String) (e : RegistryEntry)
    (he : (build_registry modules root write).1.lookup n = some e) :
    ∃ v, e.tags.lookup "latest" = some v ∧
      ((∃ t, t ∈ tagCandidates e.tags ∧ (∀ t', t' ∈ tagCandidates e.tags → t' ≤ t) ∧
          e.tags.lookup t = some v) ∨
        (tagCandidates e.tags = [] ∧
          ∃ e0, (build_fold root write modules []).lookup n = some e0 ∧
            v ∈ e0.tags.map Prod.snd)) := by
  have hinv := build_fold_inv_modules root write modules
  have he' : (apply_latest (build_fold root write modules [])).lookup n = some e := he
  rw [apply_latest_lookup] at he'
  cases hre : (build_fold root write modules []).lookup n with
  | none => rw [hre] at he'; cases he'
  | some e0 =>
    rw [hre] at he'
    have heq : e = latestify e0 := by cases he'; rfl
    have htne := hinv.tags_ne n e0 hre
    have hetags : e.tags = setk e0.tags "latest" (pick_latest_tag e0.tags) := by
      rw [heq]; unfold latestify; rw [if_neg htne]
    refine ⟨pick_latest_tag e0.tags, ?_, ?_⟩
    · rw [hetags]; exact lookup_setk_self _ _ _
    · have hcand : tagCandidates e.tags = tagCandidates e0.tags := by
        rw [hetags, tagCandidates_setk_latest]
      by_cases hc : tagCandidates e0.tags = []
      · right
        exact ⟨by rw [hcand, hc], e0, rfl, pick_mem_values e0.tags htne⟩
      · left
        have hmax := maxString_mem (tagCandidates e0.tags) hc
        rw [mem_tagCandidates] at hmax
        obtain ⟨vstar, hvstar⟩ :=
          mem_keys_lookup e0.tags (maxString (tagCandidates e0.tags)) hmax.1
        have hpick : pick_latest_tag e0.tags = vstar := by
          unfold pick_latest_tag
          rw [if_neg hc, hvstar]
          rfl
        refine ⟨maxString (tagCandidates e0.tags), ?_, ?_, ?_⟩
        · rw [hcand]; exact maxString_mem _ hc
        · intro t' ht'
          rw [hcand] at ht'
          exact le_maxString _ t' ht'
        · rw [hetags, lookup_setk_ne _ _ _ _ hmax.2, hvstar, hpick]

def sampleMod : ModuleInfo :=
  { name := "foo", version := "v2", path := ["r", "foo.js"], source := [0],
    metadata := [("name", "foo"), ("version", "v2")],
    sha256 := "sha256:" ++ sha256hex [0], versioned := false }

def C2entry : RegistryEntry :=
  ((build_registry [sampleMod] ["r"] false).1.lookup "foo").getD ⟨[], []⟩

theorem C2_latest_tag_witness :
    ([sampleMod] : List ModuleInfo) ≠ [] ∧
    (build_registry [sampleMod] ["r"] false).1.lookup "foo" = some C2entry ∧
    ∃ v, C2entry.tags.lookup "latest" = some v ∧
      ((∃ t, t ∈ tagCandidates C2entry.tags ∧
          (∀ t', t' ∈ tagCandidates C2entry.tags → t' ≤ t) ∧
          C2entry.tags.lookup t = some v) ∨
        (tagCandidates C2entry.tags = [] ∧
          ∃ e0, (build_fold ["r"] false [sampleMod] []).lookup "foo" = some e0 ∧
            v ∈ e0.tags.map Prod.snd)) :=
  ⟨by simp, by rfl,
    C2_latest_tag [sampleMod] ["r"] false (by simp) "foo" C2entry (by rfl)⟩

/-! ## Claim C8: dry-run frame condition -/

/-- C8: with the write flag disabled, `build_registry` performs no filesystem
mutation at all (in particular it never calls `materialize_module`), and each
module's hash is recorded under its name with an original discovery-time path
made relative to the root and joined with forward slashes (the path of the
last module with that name and hash, by last-write-wins). -/
theorem C8_dry_run (modules : List ModuleInfo) (root : List String)
    (m : ModuleInfo) (hm : m ∈ modules) :
    (build_registry modules root false).2 = [] ∧
    ∃ e loc, (build_registry modules root false).1.lookup m.name = some e ∧
      e.hashes.lookup m.sha256 = some loc ∧
      ∃ m', m' ∈ modules ∧ m'.name = m.name ∧ m'.sha256 = m.sha256 ∧
        loc = ⟨m'.version, as_posix (relative_to root m'.path)⟩ := by
  constructor
  · rfl
  · have hinv := build_fold_inv_modules root false modules
    obtain ⟨e0, loc, hre, hl⟩ := hinv.mod_hash m hm
    obtain ⟨m', hm', hn', hs', hloc⟩ := hinv.hashes_src m.name e0 m.sha256 loc hre hl
    refine ⟨latestify e0, loc, ?_, ?_, m', hm', hn', hs', ?_⟩
    · show (apply_latest (build_fold root false modules [])).lookup m.name
        = some (latestify e0)
      rw [apply_latest_lookup, hre]
      rfl
    · rw [latestify_hashes]
      exact hl
    · rw [hloc]
      rfl

theorem C8_dry_run_witness :
    (build_registry [sampleMod] ["r"] false).2 = [] ∧
    ∃ e loc, (build_registry [sampleMod] ["r"] false).1.lookup sampleMod.name = some e ∧
      e.hashes.lookup sampleMod.sha256 = some loc ∧
      ∃ m', m' ∈ [sampleMod] ∧ m'.name = sampleMod.name ∧ m'.sha256 = sampleMod.sha256 ∧
        loc = ⟨m'.version, as_posix (relative_to ["r"] m'.path)⟩ :=
  C8_dry_run [sampleMod] ["r"] sampleMod (by simp)

/-! ## Claim C9: same bytes under two versions of one name -/

/-- C9: two modules with the same name, byte-identical content (hence one
hash) and distinct versions yield an entry whose `tags` bind both versions to
the common hash, while `hashes` holds exactly one record for that hash
carrying the tag and path of the later module in list order. -/
theorem C9_duplicate_content (m1 m2 : ModuleInfo) (root : List String)
    (hn : m1.name = m2.name) (hh : m1.sha256 = m2.sha256) (hv : m1.version ≠ m2.version) :
    ∃ e, (build_registry [m1, m2] root false).1.lookup m1.name = some e ∧
      e.tags.lookup m1.version = some m1.sha256 ∧
      e.tags.lookup m2.version = some m1.sha256 ∧
      e.hashes = [(m2.sha256, ⟨m2.version, as_posix (relative_to root m2.path)⟩)] := by
  classical
  have hbn : (m2.name == m1.name) = true := by simp [hn]
  have hbn' : (m1.name == m2.name) = true := by simp [hn]
  have hbv : (m1.version == m2.version) = false := by simp [hv]
  have hbh : (m1.sha256 == m2.sha256) = true := by simp [hh]
  set E2 : RegistryEntry :=
    ⟨[(m1.version, m1.sha256), (m2.version, m2.sha256)],
     [(m2.sha256, ⟨m2.version, as_posix (relative_to root m2.path)⟩)]⟩ with hE2
  have hs2 : build_fold root false [m1, m2] [] = [(m2.name, E2)] := by
    show fold_step root false (fold_step root false [] m1) m2 = [(m2.name, E2)]
    simp [fold_step, setk, List.lookup, hbn, hbn', hbv, hbh, module_target_path, hE2]
  have hreg : (build_registry [m1, m2] root false).1 = [(m2.name, latestify E2)] := by
    show apply_latest (build_fold root false [m1, m2] []) = _
    rw [hs2]
    rfl
  have htne : E2.tags ≠ [] := by simp [hE2]
  have hpickmem := pick_mem_values E2.tags htne
  have hpick : pick_latest_tag E2.tags = m1.sha256 := by
    rcases (by simpa [hE2] using hpickmem :
        pick_latest_tag E2.tags = m1.sha256 ∨ pick_latest_tag E2.tags = m2.sha256) with h | h
    · exact h
    · rw [h, ← hh]
  have hltags : (latestify E2).tags = setk E2.tags "latest" (pick_latest_tag E2.tags) := by
    unfold latestify
    rw [if_neg htne]
  have hall : ∀ p, p ∈ setk E2.tags "latest" (pick_latest_tag E2.tags) → p.2 = m1.sha256 := by
    intro p hp
    rcases mem_setk _ _ _ _ hp with h | h
    · rw [h]
      exact hpick
    · rcases (by simpa [hE2] using h :
          p = (m1.version, m1.sha256) ∨ p = (m2.version, m2.sha256)) with h1 | h1
      · rw [h1]
      · rw [h1]
        exact hh.symm
  refine ⟨latestify E2, ?_, ?_, ?_, ?_⟩
  · rw [hreg]
    simp [List.lookup, hbn']
  · rw [hltags]
    refine lookup_const_values _ _ hall m1.version ?_
    rw [mem_keys_setk]
    right
    simp [hE2]
  · rw [hltags]
    refine lookup_const_values _ _ hall m2.version ?_
    rw [mem_keys_setk]
    right
    simp [hE2]
  · rw [latestify_hashes]

def C9modA : ModuleInfo :=
  { name := "dup", version := "v1", path := ["r", "p.js"], source := [7],
    metadata := [("name", "dup"), ("version", "v1")],
    sha256 := "sha256:" ++ sha256hex [7], versioned := false }

def C9modB : ModuleInfo :=
  { name := "dup", version := "v2", path := ["r", "q.js"], source := [7],
    metadata := [("name", "dup"), ("version", "v2")],
    sha256 := "sha256:" ++ sha256hex [7], versioned := false }

theorem C9_duplicate_content_witness :
    ∃ e, (build_registry [C9modA, C9modB] ["r"] false).1.lookup C9modA.name = some e ∧
      e.tags.lookup C9modA.version = some C9modA.sha256 ∧
      e.tags.lookup C9modB.version = some C9modA.sha256 ∧
      e.hashes = [(C9modB.sha256, ⟨C9modB.version, as_posix (relative_to ["r"] C9modB.path)⟩)] :=
  C9_duplicate_content C9modA C9modB ["r"] (by rfl) (by rfl) (by decide)

/-! ## Claim C3: the unused-revision report -/

def C3usage : List UsageEntry := [⟨"foo", "sha256:x", some (-1)⟩]

def C3reg : Registry :=
  [("foo", ⟨[("v1", "sha256:x")], [("sha256:x", ⟨"v1", "foo.js"⟩)]⟩)]

/-- C3 fails as stated: a tracked hash whose matching usage record has the
non-positive count -1 does NOT appear in the unused report — the code only
treats `count == 0` (or an unparseable count, coerced to 0) as unused, so a
negative count keeps the revision out of the report. -/
theorem C3_counterexample :
    (((build_usage_index C3usage).lookup "foo").getD []).lookup "sha256:x"
      = some ⟨"foo", "sha256:x", some (-1)⟩ ∧
    usage_count (some ⟨"foo", "sha256:x", some (-1)⟩) ≤ 0 ∧
    C3reg.lookup "foo" = some ⟨[("v1", "sha256:x")], [("sha256:x", ⟨"v1", "foo.js"⟩)]⟩ ∧
    report_usage C3usage C3reg = [] :=
  ⟨by rfl, by decide, by rfl, by rfl⟩

/-- C3 (amended): a tracked (name, hash) pair appears in the unused report
exactly when no usage record matches it by lowercased name and exact hash
string, or when the matching record's parsed count equals 0 (an unparseable
count is coerced to 0); a matching record with any nonzero count — positive
or negative — keeps it out of the report. -/
theorem C3_unused_report (usage : List UsageEntry) (reg : Registry)
    (n : String) (e : RegistryEntry) (h : String) (loc : Location)
    (he : reg.lookup n = some e) (hl : e.hashes.lookup h = some loc) :
    ((n, (if loc.tag ≠ "" then loc.tag else "(untagged)"), h) ∈ report_usage usage reg ↔
      ((((build_usage_index usage).lookup (pyLower n)).getD []).lookup h = none ∨
        usage_count ((((build_usage_index usage).lookup (pyLower n)).getD []).lookup h) = 0)) := by
  classical
  constructor
  · intro hmem
    simp only [report_usage] at hmem
    rw [mem_sortTriples, List.mem_flatten] at hmem
    obtain ⟨s, hs, hmem2⟩ := hmem
    rw [List.mem_map] at hs
    obtain ⟨p, hp, hps⟩ := hs
    rw [← hps] at hmem2
    simp only [unused_for_entry] at hmem2
    rw [List.mem_filterMap] at hmem2
    obtain ⟨q, hq, hfq⟩ := hmem2
    split at hfq
    case isTrue hcond =>
      rw [Option.some.injEq, Prod.mk.injEq, Prod.mk.injEq] at hfq
      obtain ⟨hp1, _, hq1⟩ := hfq
      rw [hp1, hq1] at hcond
      revert hcond
      simp [usage_count, Option.isNone_iff_eq_none]
    case isFalse => cases hfq
  · intro hcond
    simp only [report_usage]
    rw [mem_sortTriples, List.mem_flatten]
    refine ⟨unused_for_entry (build_usage_index usage) n e,
      List.mem_map.mpr ⟨(n, e), lookup_mem reg n e he, rfl⟩, ?_⟩
    simp only [unused_for_entry]
    rw [List.mem_filterMap]
    refine ⟨(h, loc), lookup_mem e.hashes h loc hl, ?_⟩
    have hcondb : (((((build_usage_index usage).lookup (pyLower n)).getD []).lookup
          (h, loc).1).isNone
        || usage_count ((((build_usage_index usage).lookup (pyLower n)).getD []).lookup
          (h, loc).1) == 0) = true := by
      rcases hcond with hc | hc
      · simp [hc]
      · simp [hc]
    split
    · rfl
    case isFalse h2 => exact absurd hcondb h2

def C3witReg : Registry :=
  [("foo", ⟨[("v1", "sha256:x")], [("sha256:x", ⟨"v1", "foo.js"⟩)]⟩)]

theorem C3_unused_report_witness :
    (((build_usage_index []).lookup (pyLower "foo")).getD []).lookup "sha256:x" = none ∧
    (("foo", "v1", "sha256:x") ∈ report_usage [] C3witReg ↔
      ((((build_usage_index []).lookup (pyLower "foo")).getD []).lookup "sha256:x" = none ∨
        usage_count
          ((((build_usage_index []).lookup (pyLower "foo")).getD []).lookup "sha256:x") = 0)) :=
  ⟨by rfl,
    (by
      have hthm := C3_unused_report [] C3witReg
        "foo" ⟨[("v1", "sha256:x")], [("sha256:x", ⟨"v1", "foo.js"⟩)]⟩ "sha256:x"
        ⟨"v1", "foo.js"⟩ (by rfl) (by rfl)
      simpa using hthm)⟩

/-! ## Claim C6: a blank module name aborts the whole run -/

theorem load_all_error_after_ok (root : List String) (l : List FileInput) (f : FileInput)
    (rest : List FileInput) (e : String)
    (hok : ∀ g, g ∈ l → ∃ m, load_module root g.rel g.source g.metadata = Except.ok m)
    (hf : load_module root f.rel f.source f.metadata = Except.error e) :
    load_all root (l ++ f :: rest) = Except.error e := by
  induction l with
  | nil => simp [load_all, hf]
  | cons g t ih =>
    obtain ⟨m, hm⟩ := hok g (by simp)
    have ih' := ih (fun g' hg' => hok g' (by simp [hg']))
    simp [load_all, hm, ih']

/-- C6: when a discovered module's metadata yields a name that is blank after
trimming (a missing name field included), `load_module` fails with an error
naming that file, discovery propagates the failure, the whole run aborts with
that error, and no manifest is written. -/
theorem C6_blank_name_aborts (rootArg : String) (root : List String)
    (rootEffs : List FsEffect) (pre post : List FileInput) (f : FileInput) (write : Bool)
    (hroot : ensure_dir rootArg = Except.ok (root, rootEffs))
    (hpre : ∀ g, g ∈ pre → ∃ m, load_module root g.rel g.source g.metadata = Except.ok m)
    (hkeep : (f.rel.getLastD "" != "registry.json") = true)
    (hname : pyLower (pyStrip (pyStr f.metadata "name")) = "") :
    main_model rootArg (pre ++ f :: post) write
        = Except.error (as_posix (root ++ f.rel) ++ ": metadata.name required") ∧
    writes_manifest root (main_model rootArg (pre ++ f :: post) write) = false := by
  have hf : load_module root f.rel f.source f.metadata
      = Except.error (as_posix (root ++ f.rel) ++ ": metadata.name required") := by
    simp only [load_module]
    rw [if_pos hname]
  have hfilter : (pre ++ f :: post).filter (fun g => g.rel.getLastD "" != "registry.json")
      = pre.filter (fun g => g.rel.getLastD "" != "registry.json") ++ f ::
        post.filter (fun g => g.rel.getLastD "" != "registry.json") := by
    rw [List.filter_append, List.filter_cons, if_pos hkeep]
  have hdisc : discover_modules root (pre ++ f :: post)
      = Except.error (as_posix (root ++ f.rel) ++ ": metadata.name required") := by
    unfold discover_modules
    rw [hfilter]
    exact load_all_error_after_ok root _ f _ _
      (fun g hg => hpre g (List.mem_of_mem_filter hg)) hf
  have hmain : main_model rootArg (pre ++ f :: post) write
      = Except.error (as_posix (root ++ f.rel) ++ ": metadata.name required") := by
    unfold main_model
    simp only [hroot, hdisc]
  exact ⟨hmain, by rw [hmain]; rfl⟩

def C6file : FileInput := ⟨["a.js"], [], [("name", " ")]⟩

theorem C6_blank_name_aborts_witness :
    main_model "r" [C6file] false
        = Except.error (as_posix (["r"] ++ C6file.rel) ++ ": metadata.name required") ∧
    writes_manifest ["r"] (main_model "r" [C6file] false) = false :=
  C6_blank_name_aborts "r" ["r"] [FsEffect.mkdirP ["r"]] [] [] C6file false (by rfl)
    (by intro g hg; cases hg) (by decide) (by decide)

/-! ## Claim C7: atomic manifest write -/

theorem fsRemove_lookup_self (fs : FsState) (p : List String) :
    (fsRemove fs p).lookup p = none := by
  induction fs with
  | nil => rfl
  | cons q rest ih =>
    by_cases hq : q.1 == p
    · have : (q.1 != p) = false := by simp_all
      simp [fsRemove, List.filter_cons, this]
      simpa [fsRemove] using ih
    · have hne : (q.1 != p) = true := by simp_all
      have hpq : ¬ (p == q.1) = true := by simp_all; intro hc; simp [hc] at hq
      simp only [fsRemove, List.filter_cons, hne, if_true]
      simp only [List.lookup]
      rw [show (p == q.1) = false from by simpa using hpq]
      simpa [fsRemove] using ih

theorem tmp_ne_target (root : List String) :
    root ++ ["registry.json.tmp"] ≠ root ++ ["registry.json"] := by
  intro hc
  have := List.append_cancel_left hc
  simp at this

/-- C7: `write_registry` first writes the serialized manifest plus a trailing
newline to `registry.json.tmp` next to the destination and then renames it
over `registry.json`; on success the manifest holds the serialized text and
the temporary is gone, while a failure of the temporary write raises an error
and leaves any previously existing `registry.json` untouched. -/
theorem C7_atomic_write (root : List String) (reg : Registry) (fs : FsState)
    (pc : String) :
    ((write_registry root reg fs true pc).1 = Except.ok () ∧
      (write_registry root reg fs true pc).2.lookup (root ++ ["registry.json"])
        = some (serialize_registry reg ++ "\n") ∧
      (write_registry root reg fs true pc).2.lookup (root ++ ["registry.json.tmp"])
        = none) ∧
    ((write_registry root reg fs false pc).1 = Except.error "write registry: OSError" ∧
      (write_registry root reg fs false pc).2.lookup (root ++ ["registry.json"])
        = fs.lookup (root ++ ["registry.json"])) := by
  have hne := tmp_ne_target root
  refine ⟨⟨rfl, ?_, ?_⟩, rfl, ?_⟩
  · show (fsRename (setk fs (root ++ ["registry.json.tmp"]) (serialize_registry reg ++ "\n"))
        (root ++ ["registry.json.tmp"]) (root ++ ["registry.json"])).lookup
        (root ++ ["registry.json"]) = some (serialize_registry reg ++ "\n")
    unfold fsRename
    rw [lookup_setk_self]
    exact lookup_setk_self _ _ _
  · show (fsRename (setk fs (root ++ ["registry.json.tmp"]) (serialize_registry reg ++ "\n"))
        (root ++ ["registry.json.tmp"]) (root ++ ["registry.json"])).lookup
        (root ++ ["registry.json.tmp"]) = none
    unfold fsRename
    rw [lookup_setk_self]
    rw [lookup_setk_ne _ _ _ _ hne]
    exact fsRemove_lookup_self _ _
  · show (setk fs (root ++ ["registry.json.tmp"]) pc).lookup (root ++ ["registry.json"])
        = fs.lookup (root ++ ["registry.json"])
    exact lookup_setk_ne _ _ _ _ (fun hc => hne hc.symm)

/-! ## Claim C10: `ensure_dir` and the empty-root run -/

/-- C10: `ensure_dir` fails exactly on a blank (whitespace-only) argument; a
non-blank path is resolved and created (with parents) rather than rejected,
so a previously nonexistent root is not an error — a run over the freshly
created empty root instead aborts with the "no JavaScript strategies found"
error. -/
theorem C10_ensure_dir (s rootArg : String) (write : Bool)
    (hblank : pyStrip s = "") (hnonblank : pyStrip rootArg ≠ "") :
    ensure_dir s = Except.error "directory required" ∧
    ensure_dir rootArg = Except.ok (resolve_path (pyStrip rootArg),
      [FsEffect.mkdirP (resolve_path (pyStrip rootArg))]) ∧
    main_model rootArg [] write
      = Except.error ("no JavaScript strategies found under "
          ++ as_posix (resolve_path (pyStrip rootArg))) := by
  refine ⟨?_, ?_, ?_⟩
  · simp only [ensure_dir]
    rw [if_pos hblank]
  · simp only [ensure_dir]
    rw [if_neg hnonblank]
  · unfold main_model
    simp only [ensure_dir]
    rw [if_neg hnonblank]
    rfl

theorem C10_ensure_dir_witness :
    ensure_dir " " = Except.error "directory required" ∧
    ensure_dir "r" = Except.ok (resolve_path (pyStrip "r"),
      [FsEffect.mkdirP (resolve_path (pyStrip "r"))]) ∧
    main_model "r" [] false
      = Except.error ("no JavaScript strategies found under "
          ++ as_posix (resolve_path (pyStrip "r"))) :=
  C10_ensure_dir " " "r" false (by decide) (by decide)

end Bootstrap
